import Mathlib

/-!
# Verification of the tiered memory service

A shallow embedding of the memory service (store, hybrid retrieval,
decay, compression pipeline) and proofs about the claims of its
specification.

Conventions of the embedding:
* Python `float` is modelled as `ℚ` (the code only adds, multiplies,
  divides by constants, and compares).
* Python `str` is modelled as `List Char` (`PyStr`), so every string
  operation the code performs is a structurally recursive function the
  kernel can evaluate.
* A call into an external collaborator that may raise is modelled by an
  `Option`/`Except` valued parameter: `none`/`.error` is a raised
  exception, `some`/`.ok` a normal return.
* The store's three lists are carried explicitly; a Python method that
  mutates the store becomes a function returning the new store.
-/

namespace MemorySvc

/-- A Python string, modelled as its sequence of characters. -/
abbrev PyStr := List Char

/-- Python `s.lower()` (ASCII, which is all the code compares). -/
def pyLower (s : PyStr) : PyStr := s.map Char.toLower

/-- Python `s.upper()` (ASCII, which is all the code compares). -/
def pyUpper (s : PyStr) : PyStr := s.map Char.toUpper

/-- Python `s.strip(chars)` restricted to a character predicate: drop the
matching characters from both ends. -/
def pyStripP (p : Char → Bool) (s : PyStr) : PyStr :=
  ((s.dropWhile p).reverse.dropWhile p).reverse

/-- Python `s.strip()`: drop whitespace from both ends. -/
def pyStrip (s : PyStr) : PyStr := pyStripP Char.isWhitespace s

/-- Python `pat in s`: `pat` occurs contiguously inside `s`. -/
def containsSub (pat : PyStr) : PyStr → Bool
  | [] => pat.isPrefixOf []
  | c :: rest => pat.isPrefixOf (c :: rest) || containsSub pat rest

/-- Python `s.split(sep)[0]`: the characters before the first occurrence
of `sep` (the whole string when `sep` does not occur). -/
def takeBefore (pat : PyStr) : PyStr → PyStr
  | [] => []
  | c :: rest => if pat.isPrefixOf (c :: rest) then [] else c :: takeBefore pat rest

/-- `models.MemoryRecord` (pydantic): a promoted observation.  The field
the code calls `interestingness` is the spec's `importance`. -/
structure MemoryRecord where
  id : PyStr
  timestamp : ℚ
  source : PyStr
  text : PyStr
  memory_text : Option PyStr
  interestingness : ℚ
deriving DecidableEq

/-- Python `mem.memory_text or mem.text`: the display text preferred by
retrieval (`memory_text` when present and non-empty, else `text`). -/
def displayText (m : MemoryRecord) : PyStr :=
  match m.memory_text with
  | some s => if s = [] then m.text else s
  | none => m.text

/-- `store.MemoryStore`: the three tiers (the lock only serialises calls
and is not part of the sequential semantics). -/
structure MemoryStore where
  memories : List MemoryRecord
  narrative_log : List PyStr
  ancient_history_log : List PyStr
deriving DecidableEq

/-- `MemoryStore.add_memory`: reject when a record with the same id is
already present, else append.  Returns (added?, new store). -/
def add_memory (st : MemoryStore) (record : MemoryRecord) : Bool × MemoryStore :=
  if st.memories.any (fun m => m.id = record.id) then
    (false, st)
  else
    (true, { st with memories := st.memories ++ [record] })

/-- `MemoryStore.get_all`: a copy of the memory list. -/
def get_all (st : MemoryStore) : List MemoryRecord := st.memories

/-- The per-record effect of `MemoryStore.decay`:
`factor = 0.5 if mem.interestingness > 0.9 else 1.0`,
`mem.interestingness = max(0.1, mem.interestingness - decay_amount * factor)`. -/
def decayRecord (decay_amount : ℚ) (m : MemoryRecord) : MemoryRecord :=
  let factor : ℚ := if m.interestingness > 0.9 then 0.5 else 1.0
  { m with interestingness := max 0.1 (m.interestingness - decay_amount * factor) }

/-- `MemoryStore.decay`: apply the decay rule to every stored memory. -/
def decay (st : MemoryStore) (decay_amount : ℚ) : MemoryStore :=
  { st with memories := st.memories.map (decayRecord decay_amount) }

/-- `MemoryStore.add_narrative`: append a narrative entry. -/
def add_narrative (st : MemoryStore) (text : PyStr) : MemoryStore :=
  { st with narrative_log := st.narrative_log ++ [text] }

/-- `MemoryStore.narrative_len`. -/
def narrative_len (st : MemoryStore) : ℕ := st.narrative_log.length

/-- `MemoryStore.pop_narrative_chunk`: remove and return the oldest
`count` narrative entries, or return nothing when fewer exist. -/
def pop_narrative_chunk (st : MemoryStore) (count : ℕ) : List PyStr × MemoryStore :=
  if st.narrative_log.length < count then
    ([], st)
  else
    (st.narrative_log.take count, { st with narrative_log := st.narrative_log.drop count })

/-- `MemoryStore.add_ancient`: append an ancient-history entry. -/
def add_ancient (st : MemoryStore) (text : PyStr) : MemoryStore :=
  { st with ancient_history_log := st.ancient_history_log ++ [text] }

/-! ## The semantic retriever (`semantic_retriever.SemanticRetriever`)

The sentence-transformer is external.  `encode` models
`self.model.encode`: `.error ()` is the call raising (model down),
`.ok v` a usable vector.  `cosSim` models `util.cos_sim` on two
vectors.  The id-keyed embedding cache only avoids recomputation of a
pure function, so it is dropped from the semantic model. -/

/-- The external embedding collaborator. -/
structure Embedder where
  encode : PyStr → Except Unit (List ℚ)
  cosSim : List ℚ → List ℚ → ℚ

/-- The embedding loop of `SemanticRetriever.rank`: walk the memories in
order, skip those whose display text is empty (`if not content: continue`),
encode the rest; the first raising `encode` aborts the call. -/
def rankCollect (E : Embedder) : List MemoryRecord → Except Unit (List (List ℚ × MemoryRecord))
  | [] => .ok []
  | m :: ms =>
    if displayText m = [] then rankCollect E ms
    else
      match E.encode (displayText m) with
      | .error e => .error e
      | .ok emb =>
        match rankCollect E ms with
        | .error e => .error e
        | .ok rest => .ok ((emb, m) :: rest)

/-- `SemanticRetriever.rank`: cosine-similarity score for every memory
with non-empty display text, in store order. -/
def rank (E : Embedder) (query : PyStr) (memories : List MemoryRecord) :
    Except Unit (List (ℚ × MemoryRecord)) :=
  if memories.isEmpty || pyStrip query = [] then .ok []
  else
    match rankCollect E memories with
    | .error e => .error e
    | .ok valid =>
      if valid.isEmpty then .ok []
      else
        match E.encode query with
        | .error e => .error e
        | .ok query_emb => .ok (valid.map (fun p => (E.cosSim query_emb p.1, p.2)))

/-! ## Hybrid retrieval (`main.retrieve_memories`) -/

/-- `{w for w in s.lower().split() if len(w) > 4}`: the set of lowercase
whitespace tokens of `s` longer than 4 characters. -/
def tokensGT4 (s : PyStr) : Finset PyStr :=
  (((pyLower s).splitOnP Char.isWhitespace).filter (fun w => 4 < w.length)).toFinset

/-- `overlap = q_words & mem_words`: the number of common lowercase
whitespace tokens longer than 4 characters of the two strings. -/
def overlapCount (query text : PyStr) : ℕ :=
  (tokensGT4 query ∩ tokensGT4 text).card

/-- `recency = max(0.0, 1.0 - age_hours / 24.0)` with
`age_hours = (now - mem.timestamp) / 3600.0`. -/
def recencyScore (now timestamp : ℚ) : ℚ :=
  max 0.0 (1.0 - ((now - timestamp) / 3600.0) / 24.0)

/-- The per-memory score of `main.retrieve_memories`, built exactly as the
code does: base hybrid sum, then the strong-match boost, then the keyword
overlap boost. -/
def finalScore (query : PyStr) (now : ℚ) (sem_score : ℚ) (m : MemoryRecord) : ℚ :=
  let final := sem_score * 0.6 + m.interestingness * 0.3 + recencyScore now m.timestamp * 0.1
  let final := if sem_score > 0.8 then final + 0.2 else final
  let overlap := overlapCount query (displayText m)
  if 0 < overlap then final + min 0.15 ((overlap : ℚ) * 0.05) else final

/-- The spec's closed-form score: the weighted sum plus a flat `0.2` when
`sem > 0.8` plus `min(0.15, overlap * 0.05)` when `overlap > 0`. -/
def specFinalScore (query : PyStr) (now : ℚ) (sem_score : ℚ) (m : MemoryRecord) : ℚ :=
  sem_score * 0.6 + m.interestingness * 0.3 + recencyScore now m.timestamp * 0.1
    + (if sem_score > 0.8 then 0.2 else 0)
    + (if 0 < overlapCount query (displayText m) then
        min 0.15 ((overlapCount query (displayText m) : ℚ) * 0.05) else 0)

/-- Python `list.sort(key=k, reverse=True)` / `sorted(key=k, reverse=True)`:
a stable sort, descending by `k`. -/
def pySortDescBy (k : α → ℚ) (l : List α) : List α :=
  l.mergeSort (fun a b => decide (k b ≤ k a))

/-- `main.retrieve_memories`: importance fallback for short queries, else
hybrid scoring of the semantic ranking, sorted descending, truncated to
`limit`.  `.error` is the unhandled exception of a raising `encode`. -/
def retrieve (E : Embedder) (now : ℚ) (st : MemoryStore) (query : PyStr) (limit : ℕ) :
    Except Unit (List MemoryRecord) :=
  let memories := get_all st
  if query = [] || (pyStrip query).length < 5 then
    .ok ((pySortDescBy (fun m => m.interestingness) memories).take limit)
  else
    match rank E query memories with
    | .error e => .error e
    | .ok ranked =>
      let scored := ranked.map (fun p => (finalScore query now p.1 p.2, p.2))
      .ok (((pySortDescBy Prod.fst scored).take limit).map Prod.snd)

/-! ## The compression pipeline (`compressor.Compressor`)

The Ollama summarizer is external: its result is a parameter of type
`Option PyStr`, `none` modelling a raised exception (caught by the code),
`some s` the generated text.  The prompt built from the events only feeds
the summarizer, so it does not appear in the model. -/

/-- `config.ANCIENT_COMPRESSION_THRESHOLD`. -/
def ANCIENT_COMPRESSION_THRESHOLD : ℕ := 10

/-- `config.ANCIENT_COMPRESSION_CHUNK`. -/
def ANCIENT_COMPRESSION_CHUNK : ℕ := 5

/-- One serialised event of a compression batch. -/
structure Event where
  source : PyStr
  text : PyStr
deriving DecidableEq

/-- The AI-preamble phrases `compress_events` strips from the front. -/
def preamblePhrases : List PyStr :=
  [("here is").data, ("here's").data, ("the memorable moment is").data,
   ("memorable moment:").data, ("one memorable moment").data]

/-- Python `s.lstrip(":")`. -/
def lstripColon (s : PyStr) : PyStr := s.dropWhile (fun c => c = ':')

/-- Python `s.strip("\"'")`. -/
def stripQuotes (s : PyStr) : PyStr := pyStripP (fun c => c = '"' || c = '\'') s

/-- The `"[SKIP]"` marker. -/
def skipMarker : PyStr := ("[SKIP]").data

/-- The `"\nNote:"` separator before trailing commentary. -/
def noteSep : PyStr := '\n' :: ("Note:").data

/-- The post-processing pipeline of `compress_events` without its reject
tests: trim, drop the first matching preamble phrase (then `lstrip(":")`
and trim), strip enclosing quotes, cut everything from the first
`"\nNote:"` (then trim). -/
def cleanedText (response : PyStr) : PyStr :=
  let narrative := pyStrip response
  let narrative :=
    match preamblePhrases.find? (fun p => p.isPrefixOf (pyLower narrative)) with
    | some p => pyStrip (lstripColon (narrative.drop p.length))
    | none => narrative
  let narrative := stripQuotes narrative
  if containsSub noteSep narrative then pyStrip (takeBefore noteSep narrative)
  else narrative

/-- The whole post-processing of `compress_events` on the summarizer's
text: `some` the narrative to append, `none` when the output is rejected
(`[SKIP]` marker, empty, a leading `Note:` line, or at most 10
characters after cleaning). -/
def cleanupNarrative (response : PyStr) : Option PyStr :=
  let narrative := pyStrip response
  if containsSub skipMarker (pyUpper narrative) || narrative = [] then none
  else
    let narrative :=
      match preamblePhrases.find? (fun p => p.isPrefixOf (pyLower narrative)) with
      | some p => pyStrip (lstripColon (narrative.drop p.length))
      | none => narrative
    let narrative := stripQuotes narrative
    let narrative :=
      if containsSub noteSep narrative then pyStrip (takeBefore noteSep narrative)
      else narrative
    if ("note:").data.isPrefixOf (pyLower narrative) then none
    else if 10 < narrative.length then some narrative
    else none

/-- `Compressor.compress_events`: returns (narrative added?, new store).
`response = none` is the summarizer call raising (caught: nothing added). -/
def compressEvents (events : List Event) (response : Option PyStr) (st : MemoryStore) :
    Bool × MemoryStore :=
  if events.isEmpty then (false, st)
  else
    match response with
    | none => (false, st)
    | some r =>
      match cleanupNarrative r with
      | some narrative => (true, add_narrative st narrative)
      | none => (false, st)

/-- The post-processing of `compress_ancient` on the summarizer's text:
trim, drop a leading `"combined summary:"` (17 characters, then trim),
strip enclosing quotes. -/
def ancientClean (response : PyStr) : PyStr :=
  let summary := pyStrip response
  let summary :=
    if ("combined summary:").data.isPrefixOf (pyLower summary) then
      pyStrip (summary.drop 17)
    else summary
  stripQuotes summary

/-- `Compressor.compress_ancient`: below the threshold nothing happens;
otherwise the oldest chunk is popped and, when the cleaned summary is
longer than 15 characters, one ancient entry is appended.  `response =
none` is the summarizer call raising (caught: chunk already popped,
nothing appended). -/
def compressAncient (response : Option PyStr) (st : MemoryStore) : Bool × MemoryStore :=
  if narrative_len st < ANCIENT_COMPRESSION_THRESHOLD then (false, st)
  else
    let popped := pop_narrative_chunk st ANCIENT_COMPRESSION_CHUNK
    if popped.1.isEmpty then (false, popped.2)
    else
      match response with
      | none => (false, popped.2)
      | some r =>
        let summary := ancientClean r
        if 15 < summary.length then (true, add_ancient popped.2 summary)
        else (false, popped.2)

/-! ## Reachable store states (`add_memory` / `decay` sequences) -/

/-- A mutating operation on the memory tier. -/
inductive Op where
  | add (record : MemoryRecord)
  | decayBy (amount : ℚ)
deriving DecidableEq

/-- Apply one operation to the store. -/
def applyOp (st : MemoryStore) : Op → MemoryStore
  | .add r => (add_memory st r).2
  | .decayBy a => decay st a

/-- Run a sequence of operations. -/
def runOps (st : MemoryStore) (ops : List Op) : MemoryStore :=
  ops.foldl applyOp st

/-- Every stored importance lies in `[0.1, 1.0]`. -/
def importanceInRange (st : MemoryStore) : Prop :=
  ∀ m ∈ st.memories, (0.1 : ℚ) ≤ m.interestingness ∧ m.interestingness ≤ 1.0

instance (st : MemoryStore) : Decidable (importanceInRange st) := by
  unfold importanceInRange; infer_instance

/-- The operations the service's own endpoints can issue once records are
validated: adds of records whose importance lies in `[0.1, 1.0]`, decays
by a non-negative amount. -/
def opOk : Op → Prop
  | .add r => (0.1 : ℚ) ≤ r.interestingness ∧ r.interestingness ≤ 1.0
  | .decayBy a => 0 ≤ a

instance (op : Op) : Decidable (opOk op) := by
  cases op <;> { unfold opOk; infer_instance }

/-! ## Reference semantics for snapshots (`get_all` aliasing)

Python's `list(self.memories)` copies the list but not the
`MemoryRecord` objects it holds, and `decay` assigns to a field of each
object in place.  To speak about that sharing the embedding makes the
object graph explicit: a `Heap` of records, a store holding references
(heap indices), and `decay` mutating the heap cell by cell. -/

/-- A heap of record objects; a reference is an index into it. -/
abbrev Heap := List MemoryRecord

/-- A reference to a `MemoryRecord` object. -/
abbrev Ref := ℕ

/-- The store as Python holds it: a list of references to record objects. -/
structure StoreH where
  memrefs : List Ref
deriving DecidableEq

/-- Replace the object at one reference. -/
def heapModify : Heap → Ref → (MemoryRecord → MemoryRecord) → Heap
  | [], _, _ => []
  | x :: xs, 0, f => f x :: xs
  | x :: xs, n + 1, f => x :: heapModify xs n f

/-- The importance a caller reads through a reference. -/
def derefImp (h : Heap) (r : Ref) : Option ℚ :=
  (h.get? r).map (fun m => m.interestingness)

/-- `MemoryStore.get_all` under reference semantics: `list(self.memories)`
copies the list of references, not the objects. -/
def get_allH (st : StoreH) : List Ref := st.memrefs

/-- `MemoryStore.decay` under reference semantics: mutate in place the
object behind every reference the store holds. -/
def decayH (decay_amount : ℚ) (st : StoreH) (h : Heap) : Heap :=
  st.memrefs.foldl (fun hp r => heapModify hp r (decayRecord decay_amount)) h

/-! ## Concrete fixtures used by witnesses and counterexamples -/

/-- A typical stored memory. -/
def memA : MemoryRecord :=
  { id := ("a").data, timestamp := 0, source := ("MICROPHONE").data,
    text := ("otter spun a one three times in a row").data,
    memory_text := none, interestingness := 1/2 }

/-- A second memory with a different id. -/
def memB : MemoryRecord :=
  { id := ("b").data, timestamp := 0, source := ("TWITCH_CHAT").data,
    text := ("chat picked the space janitor job").data,
    memory_text := none, interestingness := 3/4 }

/-- A memory stored with an importance below the 0.1 floor (nothing in the
code validates the caller-supplied value). -/
def memLow : MemoryRecord := { memA with id := ("low").data, interestingness := 1/20 }

/-- A memory in the high-importance band (> 0.9). -/
def memHigh : MemoryRecord := { memA with id := ("high").data, interestingness := 19/20 }

/-- A memory stored with an importance above 1 (nothing in the code
validates the caller-supplied value). -/
def memWild : MemoryRecord := { memA with id := ("wild").data, interestingness := 2 }

/-- A memory whose display text is empty. -/
def memBlank : MemoryRecord :=
  { id := ("blank").data, timestamp := 0, source := ("AMBIENT_AUDIO").data,
    text := [], memory_text := none, interestingness := 1/2 }

/-- The store with nothing in it. -/
def emptyStore : MemoryStore := ⟨[], [], []⟩

/-- A query of at least 5 trimmed characters. -/
def qLong : PyStr := ("hello memory").data

/-- An embedder whose every call succeeds. -/
def embedderUp : Embedder := { encode := fun _ => .ok [1], cosSim := fun _ _ => 1/2 }

/-- An embedder whose every call raises (the model is unavailable). -/
def embedderDown : Embedder := { encode := fun _ => .error (), cosSim := fun _ _ => 0 }

/-- Ten narrative entries, as a store ready for ancient compression. -/
def narr10 : List PyStr :=
  [("n0 otter lost").data, ("n1 chat roasted him").data, ("n2 he blamed rng").data,
   ("n3 a win at last").data, ("n4 taxes hit hard").data, ("n5 rage quit").data,
   ("n6 new run started").data, ("n7 chat voted janitor").data,
   ("n8 three ones in a row").data, ("n9 credits rolled").data]

/-- A one-record heap and a store holding one reference into it. -/
def heap0 : Heap := [memA]

/-- The store of references matching `heap0`. -/
def storeH0 : StoreH := ⟨[0]⟩

/-! ## C3: `add_memory` id-based dedup -/

/-- `add_memory` on a store already holding the id: rejected, no mutation. -/
theorem add_memory_of_dup (st : MemoryStore) (r : MemoryRecord)
    (h : ∃ m ∈ st.memories, m.id = r.id) : add_memory st r = (false, st) := by
  simp [add_memory, h]

/-- `add_memory` on a store free of the id: appended at the end. -/
theorem add_memory_of_fresh (st : MemoryStore) (r : MemoryRecord)
    (h : ∀ m ∈ st.memories, m.id ≠ r.id) :
    add_memory st r = (true, { st with memories := st.memories ++ [r] }) := by
  have hno : ¬ ∃ m ∈ st.memories, m.id = r.id := by
    rintro ⟨m, hm, he⟩
    exact h m hm he
  simp [add_memory, hno]

/-- C3: for every store state and record, `add_memory` returns false and
leaves the memory tier unchanged when the record's id is already present;
otherwise it appends the record at the end, returns true, and grows the
store by exactly one; and any retry with the same id afterwards is a
rejected no-op (idempotence). -/
theorem C3_add_memory_dedup (st st' : MemoryStore) (r r' d : MemoryRecord)
    (hdup : ∃ m ∈ st.memories, m.id = r.id)
    (hfresh : ∀ m ∈ st'.memories, m.id ≠ r'.id)
    (hid : d.id = r'.id) :
    add_memory st r = (false, st)
    ∧ (add_memory st' r').1 = true
    ∧ (add_memory st' r').2.memories = st'.memories ++ [r']
    ∧ (add_memory st' r').2.memories.length = st'.memories.length + 1
    ∧ (add_memory st' r').2.narrative_log = st'.narrative_log
    ∧ (add_memory st' r').2.ancient_history_log = st'.ancient_history_log
    ∧ add_memory (add_memory st' r').2 d = (false, (add_memory st' r').2) := by
  have hf := add_memory_of_fresh st' r' hfresh
  have hsnd : (add_memory st' r').2.memories = st'.memories ++ [r'] := by rw [hf]
  refine ⟨add_memory_of_dup st r hdup, by rw [hf], hsnd, by rw [hsnd]; simp,
    by rw [hf], by rw [hf], ?_⟩
  exact add_memory_of_dup _ d ⟨r', by rw [hsnd]; simp, hid.symm⟩

/-- C3 witness: a duplicate add on a one-record store, a fresh add on the
empty store, and the retry of the fresh add, all at concrete records. -/
theorem C3_add_memory_dedup_witness :
    add_memory ⟨[memA], [], []⟩ { memA with text := ("new text").data } = (false, ⟨[memA], [], []⟩) :=
  (C3_add_memory_dedup ⟨[memA], [], []⟩ emptyStore { memA with text := ("new text").data } memB memB
    ⟨memA, by simp, rfl⟩ (by simp [emptyStore]) rfl).1

/-! ## C4: `pop_narrative_chunk` -/

/-- C4: popping `n` oldest narrative entries returns the empty chunk and
changes nothing when fewer than `n` entries exist; otherwise it returns
exactly the `n` oldest in original order and leaves the remaining entries,
the new length being the old length minus `n`. -/
theorem C4_pop_narrative_chunk (st st' : MemoryStore) (n n' : ℕ)
    (hlt : st.narrative_log.length < n)
    (hge : n' ≤ st'.narrative_log.length) :
    pop_narrative_chunk st n = ([], st)
    ∧ (pop_narrative_chunk st' n').1 = st'.narrative_log.take n'
    ∧ (pop_narrative_chunk st' n').1.length = n'
    ∧ (pop_narrative_chunk st' n').2.narrative_log = st'.narrative_log.drop n'
    ∧ (pop_narrative_chunk st' n').1 ++ (pop_narrative_chunk st' n').2.narrative_log
        = st'.narrative_log
    ∧ (pop_narrative_chunk st' n').2.narrative_log.length = st'.narrative_log.length - n'
    ∧ (pop_narrative_chunk st' n').2.memories = st'.memories
    ∧ (pop_narrative_chunk st' n').2.ancient_history_log = st'.ancient_history_log := by
  have hnot : ¬ st'.narrative_log.length < n' := not_lt.mpr hge
  refine ⟨by simp [pop_narrative_chunk, hlt], by simp [pop_narrative_chunk, hnot],
    ?_, by simp [pop_narrative_chunk, hnot], ?_, ?_,
    by simp [pop_narrative_chunk, hnot], by simp [pop_narrative_chunk, hnot]⟩
  · simp [pop_narrative_chunk, hnot, List.length_take, Nat.min_eq_left hge]
  · simp [pop_narrative_chunk, hnot]
  · simp [pop_narrative_chunk, hnot]

/-- C4 witness: a pop of 3 from an empty narrative log and a pop of 1 from
a one-entry log, at concrete stores. -/
theorem C4_pop_narrative_chunk_witness :
    pop_narrative_chunk emptyStore 3 = ([], emptyStore) :=
  (C4_pop_narrative_chunk emptyStore ⟨[], [("n0 otter lost").data], []⟩ 3 1
    (by simp [emptyStore]) (by simp)).1

/-! ## C2: the decay rule

The claim's formula part holds, but its consequence "decay with amount 0
leaves every importance unchanged" fails: nothing validates the
caller-supplied importance at `add_memory`, and `max(0.1, importance - 0)`
raises a stored importance below 0.1 up to the floor.  It holds for every
memory whose importance is at least 0.1. -/

/-- C2 counterexample: a record stored with importance `0.05` (which
`add_memory` accepts unchecked) does not keep its importance under
`decay(0)` — the floor raises it to `0.1`, so decay with amount 0 is not
a no-op on every stored memory. -/
theorem C2_decay_zero_not_noop :
    (decay ⟨[memLow], [], []⟩ 0).memories.map (fun m => m.interestingness)
      ≠ [memLow].map (fun m => m.interestingness) := by
  simp only [decay, List.map_map, List.map_cons, List.map_nil, Function.comp,
    decayRecord, memLow, memA]
  norm_num

/-- C2 (amended): every decay sets each importance to exactly
`max(0.1, importance - x * factor)` with `factor = 0.5` when the current
importance exceeds 0.9 and `1.0` otherwise; decay with amount 0 leaves
every memory whose importance is at least 0.1 unchanged (and hence a
whole store of such memories); decay never produces an importance below
0.1; and while no floor is hit, a memory with importance > 0.9 loses
exactly half as much as one with importance ≤ 0.9 for the same x. -/
theorem C2_decay_rule (x : ℚ) (m m1 m2 : MemoryRecord) (st : MemoryStore)
    (hm : (0.1 : ℚ) ≤ m.interestingness)
    (hall : ∀ mm ∈ st.memories, (0.1 : ℚ) ≤ mm.interestingness)
    (h1 : (0.9 : ℚ) < m1.interestingness)
    (h2 : m2.interestingness ≤ 0.9)
    (hf1 : (0.1 : ℚ) ≤ m1.interestingness - x * 0.5)
    (hf2 : (0.1 : ℚ) ≤ m2.interestingness - x) :
    (∀ y mm, (decayRecord y mm).interestingness
        = max 0.1 (mm.interestingness - y * (if mm.interestingness > 0.9 then 0.5 else 1.0)))
    ∧ decayRecord 0 m = m
    ∧ decay st 0 = st
    ∧ (∀ y mm, (0.1 : ℚ) ≤ (decayRecord y mm).interestingness)
    ∧ m1.interestingness - (decayRecord x m1).interestingness = x * 0.5
    ∧ m2.interestingness - (decayRecord x m2).interestingness = x := by
  have hzero : ∀ mm : MemoryRecord, (0.1 : ℚ) ≤ mm.interestingness → decayRecord 0 mm = mm := by
    intro mm hle
    cases mm with
    | mk id timestamp source text memory_text interestingness =>
      simp only [decayRecord, MemoryRecord.mk.injEq, and_true, true_and]
      rw [zero_mul, sub_zero]
      exact max_eq_right hle
  refine ⟨fun y mm => rfl, hzero m hm, ?_, ?_, ?_, ?_⟩
  · cases st with
    | mk memories narrative_log ancient_history_log =>
      simp only [decay, MemoryStore.mk.injEq, and_true, true_and]
      rw [List.map_congr_left (fun mm hmm => hzero mm (hall mm hmm))]
      exact List.map_id _
  · intro y mm
    exact le_max_left _ _
  · simp only [decayRecord, if_pos h1]
    rw [max_eq_right hf1]
    ring
  · simp only [decayRecord, if_neg (not_lt.mpr h2)]
    have : m2.interestingness - x * 1.0 = m2.interestingness - x := by ring
    rw [this, max_eq_right hf2]
    ring

/-- C2 witness: the half-rate consequence at `x = 0.1` for concrete
high-band (importance 0.95) and normal (importance 0.5) memories. -/
theorem C2_decay_rule_witness :
    memHigh.interestingness - (decayRecord (1/10) memHigh).interestingness = (1/10) * 0.5 :=
  (C2_decay_rule (1/10) memA memHigh memA emptyStore
    (by norm_num [memA]) (by simp [emptyStore])
    (by norm_num [memHigh, memA]) (by norm_num [memA])
    (by norm_num [memHigh, memA]) (by norm_num [memA])).2.2.2.2.1

/-! ## C6: the importance range invariant

The claim fails as stated: `add_memory` performs no validation of the
caller-supplied importance, so a single add of a record with importance
outside `[0.1, 1.0]` reaches a violating state.  The invariant does hold
for the operations the service's endpoints actually issue: adds of
in-range records and decays by non-negative amounts. -/

/-- One in-range-preserving step. -/
theorem importanceInRange_applyOp (st : MemoryStore) (op : Op)
    (hop : opOk op) (hst : importanceInRange st) :
    importanceInRange (applyOp st op) := by
  cases op with
  | add r =>
    intro m hm
    simp only [applyOp, add_memory] at hm
    by_cases hc : ∃ mm ∈ st.memories, mm.id = r.id
    · rw [if_pos (by simpa using hc)] at hm
      exact hst m hm
    · rw [if_neg (by simpa using hc)] at hm
      simp only [List.mem_append, List.mem_singleton] at hm
      rcases hm with hm | rfl
      · exact hst m hm
      · exact hop
  | decayBy a =>
    intro m hm
    simp only [applyOp, decay, List.mem_map] at hm
    obtain ⟨mm, hmm, rfl⟩ := hm
    have hfac : (0 : ℚ) ≤ (if mm.interestingness > 0.9 then (0.5 : ℚ) else 1.0) := by
      split <;> norm_num
    constructor
    · exact le_max_left _ _
    · have h1 : (0.1 : ℚ) ≤ 1.0 := by norm_num
      have h2 : mm.interestingness - a * (if mm.interestingness > 0.9 then (0.5 : ℚ) else 1.0)
          ≤ 1.0 :=
        le_trans (sub_le_self _ (mul_nonneg hop hfac)) (hst mm hmm).2
      exact max_le h1 h2

/-- C6 counterexample: starting from the empty store, the single
operation "add a record with importance 2" (which `add_memory` accepts,
since it checks only the id) reaches a state whose stored importance lies
outside `[0.1, 1.0]`. -/
theorem C6_range_violation :
    ¬ importanceInRange (runOps emptyStore [Op.add memWild]) := by
  intro h
  have := h memWild (by simp [runOps, applyOp, add_memory, emptyStore])
  rw [memWild] at this
  norm_num at this

/-- C6 (amended): every store state reachable from a state whose
importances lie in `[0.1, 1.0]` by adds of records with importance in
`[0.1, 1.0]` and decays by non-negative amounts keeps every stored
importance in `[0.1, 1.0]`; in particular none drops below 0.1. -/
theorem C6_importance_invariant (ops : List Op) (st : MemoryStore)
    (hops : ∀ op ∈ ops, opOk op) (hst : importanceInRange st) :
    importanceInRange (runOps st ops) := by
  induction ops generalizing st with
  | nil => exact hst
  | cons op rest ih =>
    exact ih (applyOp st op) (fun o ho => hops o (List.mem_cons_of_mem _ ho))
      (importanceInRange_applyOp st op (hops op (List.mem_cons_self _ _)) hst)

/-- C6 witness: from the empty store, add two in-range records and decay
by 0.1; the reached state satisfies the invariant. -/
theorem C6_importance_invariant_witness :
    importanceInRange (runOps emptyStore [Op.add memA, Op.add memHigh, Op.decayBy (1/10)]) :=
  C6_importance_invariant [Op.add memA, Op.add memHigh, Op.decayBy (1/10)] emptyStore
    (by
      intro op hop
      simp only [List.mem_cons, List.not_mem_nil, or_false] at hop
      rcases hop with rfl | rfl | rfl <;> norm_num [opOk, memA, memHigh])
    (by intro m hm; simp [emptyStore] at hm)

/-! ## C9: `compress_ancient` threshold and rollup -/

/-- C9: `compress_ancient` is a no-op below the narrative threshold of 10
entries; on exactly 10 entries with chunk size 5, when the summarizer's
cleaned output is longer than 15 characters, it removes exactly the 5
oldest narrative entries, appends exactly one ancient entry, and leaves 5
narrative entries. -/
theorem C9_compress_ancient (st st' : MemoryStore) (response : Option PyStr) (s : PyStr)
    (hlt : st.narrative_log.length < 10)
    (hlen : st'.narrative_log.length = 10)
    (hsum : 15 < (ancientClean s).length) :
    compressAncient response st = (false, st)
    ∧ (compressAncient (some s) st').1 = true
    ∧ (compressAncient (some s) st').2.narrative_log = st'.narrative_log.drop 5
    ∧ (compressAncient (some s) st').2.narrative_log.length = 5
    ∧ (compressAncient (some s) st').2.ancient_history_log
        = st'.ancient_history_log ++ [ancientClean s]
    ∧ (compressAncient (some s) st').2.memories = st'.memories := by
  have hnoop : compressAncient response st = (false, st) := by
    unfold compressAncient
    rw [if_pos (show narrative_len st < ANCIENT_COMPRESSION_THRESHOLD from hlt)]
  have hpop : pop_narrative_chunk st' ANCIENT_COMPRESSION_CHUNK
      = (st'.narrative_log.take 5, { st' with narrative_log := st'.narrative_log.drop 5 }) := by
    unfold pop_narrative_chunk ANCIENT_COMPRESSION_CHUNK
    rw [if_neg (by rw [hlen]; norm_num)]
  have htake : (st'.narrative_log.take 5).isEmpty = false := by
    rw [Bool.eq_false_iff]
    intro hcontra
    rw [List.isEmpty_iff] at hcontra
    have hc := congrArg List.length hcontra
    rw [List.length_take, hlen] at hc
    simp at hc
  have hmain : compressAncient (some s) st'
      = (true, add_ancient { st' with narrative_log := st'.narrative_log.drop 5 }
          (ancientClean s)) := by
    unfold compressAncient
    rw [if_neg (by simp [narrative_len, ANCIENT_COMPRESSION_THRESHOLD, hlen]), hpop]
    simp only [htake, Bool.false_eq_true, if_false, if_pos hsum]
  refine ⟨hnoop, ?_, ?_, ?_, ?_, ?_⟩ <;> rw [hmain] <;>
    simp [add_ancient, List.length_drop, hlen]

/-- C9 witness: the empty store is untouched, and a concrete 10-entry
narrative log with a long concrete summary rolls 5 entries into one
ancient entry. -/
theorem C9_compress_ancient_witness :
    (compressAncient (some (("Earlier, otter lost three games and chat roasted him").data))
        ⟨[], narr10, []⟩).1 = true :=
  (C9_compress_ancient emptyStore ⟨[], narr10, []⟩ none
    (("Earlier, otter lost three games and chat roasted him").data)
    (by simp [emptyStore]) (by simp [narr10]) (by decide)).2.1

/-! ## C8: `compress_events` acceptance conditions -/

/-- The post-processing of `compress_events` appends the cleaned text
exactly when the trimmed output has no case-insensitive `[SKIP]` marker,
is non-empty, does not reduce to a leading `Note:` line, and is longer
than 10 characters after cleaning. -/
theorem cleanupNarrative_eq (s : PyStr) :
    cleanupNarrative s =
      if containsSub skipMarker (pyUpper (pyStrip s)) || pyStrip s = [] then none
      else if ("note:").data.isPrefixOf (pyLower (cleanedText s)) then none
      else if 10 < (cleanedText s).length then some (cleanedText s)
      else none := by
  unfold cleanupNarrative cleanedText
  rfl

/-- C8: `compress_events` appends exactly one narrative entry and reports
an addition iff the batch is non-empty, the summarizer returned (did not
raise), and the returned text passes every acceptance test (no
case-insensitive `[SKIP]`, non-empty once trimmed, not a leading `Note:`
line, longer than 10 characters after cleaning); in every other case it
reports no addition and leaves the store unchanged (exceptions are caught,
never propagated). -/
theorem C8_compress_events (events : List Event) (response : Option PyStr) (st : MemoryStore) :
    ((compressEvents events response st).2.narrative_log.length
        = st.narrative_log.length + (if (compressEvents events response st).1 then 1 else 0))
    ∧ ((compressEvents events response st).1 = true ↔
        events ≠ [] ∧ ∃ s, response = some s
          ∧ containsSub skipMarker (pyUpper (pyStrip s)) = false
          ∧ pyStrip s ≠ []
          ∧ ("note:").data.isPrefixOf (pyLower (cleanedText s)) = false
          ∧ 10 < (cleanedText s).length)
    ∧ ((compressEvents events response st).1 = false → (compressEvents events response st).2 = st)
    ∧ (∀ s, response = some s → (compressEvents events response st).1 = true →
        (compressEvents events response st).2 = add_narrative st (cleanedText s))
    ∧ (compressEvents events response st).2.memories = st.memories
    ∧ (compressEvents events response st).2.ancient_history_log = st.ancient_history_log := by
  by_cases hev : events.isEmpty
  · have hev' : events = [] := List.isEmpty_iff.mp hev
    simp [compressEvents, hev, hev', add_narrative]
  · have hev' : events ≠ [] := fun hcontra => hev (by simp [hcontra])
    cases response with
    | none => simp [compressEvents, hev, add_narrative]
    | some s =>
      simp only [compressEvents, hev, Bool.false_eq_true, if_false, cleanupNarrative_eq s]
      by_cases h1 : containsSub skipMarker (pyUpper (pyStrip s)) = true
      · simp [h1, add_narrative]
      · rw [Bool.not_eq_true] at h1
        by_cases h2 : pyStrip s = []
        · simp [h1, h2, add_narrative]
        · by_cases h3 : ("note:").data.isPrefixOf (pyLower (cleanedText s)) = true
          · simp [h1, h2, h3, add_narrative]
          · rw [Bool.not_eq_true] at h3
            by_cases h4 : 10 < (cleanedText s).length
            · simp [h1, h2, h3, h4, add_narrative, hev']
            · simp [h1, h2, h3, h4, add_narrative]

/-- C8 witness: a concrete batch whose summarizer output carries a
preamble and a trailing note is cleaned and appended. -/
theorem C8_compress_events_witness :
    (compressEvents [⟨("MICROPHONE").data, ("otter spun a one").data⟩]
        (some (("Here is: Otter rage-quit after spinning a one\nNote: extracted").data))
        emptyStore).2
      = add_narrative emptyStore (("Otter rage-quit after spinning a one").data) := by
  have h := (C8_compress_events [⟨("MICROPHONE").data, ("otter spun a one").data⟩]
    (some (("Here is: Otter rage-quit after spinning a one\nNote: extracted").data))
    emptyStore).2.2.2.1
    (("Here is: Otter rage-quit after spinning a one\nNote: extracted").data) rfl (by decide)
  rw [h]
  have hclean : cleanedText (("Here is: Otter rage-quit after spinning a one\nNote: extracted").data)
      = ("Otter rage-quit after spinning a one").data := by decide
  rw [hclean]

/-! ## C10: snapshots share the record objects

The list returned by `get_all` is a copy of the store's list, but the
`MemoryRecord` objects it holds are the store's own (Python's `list(...)`
is shallow), and `decay` assigns the new importance into each object in
place.  So a decay after a snapshot does change the importance values the
caller reads through the records it was handed. -/

/-- Reading around a `heapModify`: only the modified reference changes. -/
theorem heapModify_get? (h : Heap) (r j : Ref) (f : MemoryRecord → MemoryRecord) :
    (heapModify h r f).get? j = if r = j then (h.get? j).map f else h.get? j := by
  induction h generalizing r j with
  | nil =>
    cases r <;> simp [heapModify]
  | cons x xs ih =>
    cases r with
    | zero => cases j <;> simp [heapModify]
    | succ r' =>
      cases j with
      | zero => simp [heapModify]
      | succ j' => simpa [heapModify] using ih r' j'

/-- A fold of `heapModify`s over references not containing `r` leaves the
object behind `r` unread and unwritten. -/
theorem foldl_heapModify_get?_not_mem (f : MemoryRecord → MemoryRecord)
    (refs : List Ref) (h : Heap) (r : Ref) (hr : r ∉ refs) :
    ((refs.foldl (fun hp x => heapModify hp x f) h).get? r) = h.get? r := by
  induction refs generalizing h with
  | nil => rfl
  | cons x rest ih =>
    have hx : x ≠ r := fun hcontra => hr (hcontra ▸ List.mem_cons_self _ _)
    have hrest : r ∉ rest := fun hcontra => hr (List.mem_cons_of_mem _ hcontra)
    simp only [List.foldl_cons]
    rw [ih (heapModify h x f) hrest, heapModify_get? h x r f, if_neg hx]

/-- A fold of `heapModify`s over distinct references applies `f` once to
the object behind each of them. -/
theorem foldl_heapModify_get?_mem (f : MemoryRecord → MemoryRecord)
    (refs : List Ref) (h : Heap) (r : Ref) (hnd : refs.Nodup) (hr : r ∈ refs) :
    ((refs.foldl (fun hp x => heapModify hp x f) h).get? r) = (h.get? r).map f := by
  induction refs generalizing h with
  | nil => cases hr
  | cons x rest ih =>
    simp only [List.foldl_cons]
    rcases List.mem_cons.mp hr with rfl | hr'
    · have hnot : r ∉ rest := (List.nodup_cons.mp hnd).1
      rw [foldl_heapModify_get?_not_mem f rest _ r hnot, heapModify_get?, if_pos rfl]
    · rw [ih (heapModify h x f) (List.nodup_cons.mp hnd).2 hr', heapModify_get?]
      have hx : x ≠ r := by
        rintro rfl
        exact (List.nodup_cons.mp hnd).1 hr'
      rw [if_neg hx]

/-- C10 counterexample: take the snapshot of a concrete one-record store
(importance 0.5), then decay by 0.2; the importance read through the
snapshot's record is now 0.3, not the 0.5 it had when returned — the
snapshot list is a copy but the records are live, shared objects. -/
theorem C10_snapshot_mutated :
    (get_allH storeH0).map (derefImp (decayH (1/5) storeH0 heap0))
      ≠ (get_allH storeH0).map (derefImp heap0) := by
  simp only [get_allH, storeH0, decayH, List.foldl_cons, List.foldl_nil, heap0,
    heapModify, derefImp, decayRecord, List.map_cons, List.map_nil, List.get?,
    Option.map_some', memA]
  norm_num

/-- C10 (amended): the snapshot is a copy of the *list* — decay adds or
removes no record and the snapshot keeps referring to the same objects —
but the record objects are shared, so after a decay the importance read
through every snapshot reference is the decayed value, not the value at
snapshot time. -/
theorem C10_snapshot_sharing (st : StoreH) (h : Heap) (amount : ℚ) (r : Ref)
    (hnd : st.memrefs.Nodup) (hr : r ∈ get_allH st) :
    (decayH amount st h).length = h.length
    ∧ derefImp (decayH amount st h) r
        = (h.get? r).map (fun m => (decayRecord amount m).interestingness) := by
  constructor
  · unfold decayH
    generalize h = h0
    induction st.memrefs generalizing h0 with
    | nil => rfl
    | cons x rest ih =>
      simp only [List.foldl_cons]
      rw [ih (heapModify h0 x (decayRecord amount))]
      clear ih
      induction h0 generalizing x with
      | nil => cases x <;> rfl
      | cons y ys ihy =>
        cases x with
        | zero => rfl
        | succ x' => simpa [heapModify] using ihy x'
  · unfold derefImp decayH
    rw [foldl_heapModify_get?_mem (decayRecord amount) st.memrefs h r hnd hr]
    cases h.get? r <;> rfl

/-- C10 amended-claim witness: at the concrete one-record store, the
importance read through the snapshot reference after a 0.2 decay is the
decayed value of the record. -/
theorem C10_snapshot_sharing_witness :
    derefImp (decayH (1/5) storeH0 heap0) 0
      = (heap0.get? 0).map (fun m => (decayRecord (1/5) m).interestingness) :=
  (C10_snapshot_sharing storeH0 heap0 (1/5) 0 (by decide) (by decide)).2

/-! ## C5: embedder failure and empty-content exclusion

The claim's exclusion part holds for memories the retriever can produce
no vector for because their display text is empty: they are skipped and
the request succeeds over the rest.  Its availability part fails:
`retrieve_memories` wraps `retriever.rank` in no exception handler, so a
raising `encode` (the model being down) propagates and the request
errors instead of succeeding. -/

/-- C5 counterexample: with the embedder down (`encode` raises), a
retrieval with a long query over a store holding one perfectly ordinary
memory does not succeed — the exception propagates to the caller. -/
theorem C5_embedder_down_fails :
    retrieve embedderDown 0 ⟨[memA], [], []⟩ qLong 5 = .error () := rfl

/-- The embedding loop succeeds when `encode` succeeds on every non-empty
display text, and every pair it returns carries a stored memory with
non-empty display text. -/
theorem rankCollect_ok (E : Embedder) (l : List MemoryRecord)
    (hE : ∀ m ∈ l, displayText m ≠ [] → ∃ v, E.encode (displayText m) = .ok v) :
    ∃ pairs, rankCollect E l = .ok pairs
      ∧ ∀ p ∈ pairs, p.2 ∈ l ∧ displayText p.2 ≠ [] := by
  induction l with
  | nil => exact ⟨[], rfl, by simp⟩
  | cons m ms ih =>
    obtain ⟨pairs, hok, hmem⟩ := ih (fun mm hmm h => hE mm (List.mem_cons_of_mem _ hmm) h)
    by_cases hd : displayText m = []
    · refine ⟨pairs, ?_, ?_⟩
      · simp [rankCollect, hd, hok]
      · intro p hp
        exact ⟨List.mem_cons_of_mem _ (hmem p hp).1, (hmem p hp).2⟩
    · obtain ⟨v, hv⟩ := hE m (List.mem_cons_self _ _) hd
      refine ⟨(v, m) :: pairs, ?_, ?_⟩
      · rw [rankCollect, if_neg hd, hv, hok]
      · intro p hp
        rcases List.mem_cons.mp hp with rfl | hp'
        · exact ⟨List.mem_cons_self _ _, hd⟩
        · exact ⟨List.mem_cons_of_mem _ (hmem p hp').1, (hmem p hp').2⟩

/-- C5 (amended): when the embedder succeeds on the query and on every
non-empty display text, a retrieval with a long query succeeds, and every
memory it returns is a stored memory with non-empty display text — so a
memory the embedder gets no content for is excluded from the scored
ranking (while remaining in the untouched store) without failing the
request; but an embedder whose `encode` raises fails the whole request. -/
theorem C5_empty_content_excluded (E : Embedder) (now : ℚ) (st : MemoryStore)
    (query : PyStr) (limit : ℕ)
    (hq : 5 ≤ (pyStrip query).length)
    (hE : ∀ m ∈ st.memories, displayText m ≠ [] → ∃ v, E.encode (displayText m) = .ok v)
    (hQ : ∃ vq, E.encode query = .ok vq) :
    ∃ res, retrieve E now st query limit = .ok res
      ∧ ∀ m ∈ res, m ∈ st.memories ∧ displayText m ≠ [] := by
  obtain ⟨pairs, hok, hmem⟩ := rankCollect_ok E st.memories hE
  have hq1 : ¬ (query = [] || decide ((pyStrip query).length < 5)) = true := by
    simp only [Bool.or_eq_true, decide_eq_true_eq]
    rintro (rfl | hlt)
    · simp [pyStrip, pyStripP] at hq
    · omega
  have hq2 : pyStrip query ≠ [] := by
    intro hcontra
    rw [hcontra] at hq
    simp at hq
  by_cases hnil : st.memories.isEmpty
  · refine ⟨[], ?_, by simp⟩
    have hrank : rank E query st.memories = .ok [] := by
      unfold rank
      rw [if_pos (by simp [hnil])]
    unfold retrieve get_all
    rw [if_neg hq1, hrank]
    simp [pySortDescBy]
  · have hrank : ∃ ranked, rank E query st.memories = .ok ranked
        ∧ ∀ p ∈ ranked, p.2 ∈ st.memories ∧ displayText p.2 ≠ [] := by
      unfold rank
      rw [if_neg (by simp [hnil, hq2]), hok]
      by_cases hpe : pairs.isEmpty
      · refine ⟨[], ?_, by simp⟩
        simp [hpe]
      · obtain ⟨vq, hvq⟩ := hQ
        refine ⟨pairs.map (fun p => (E.cosSim vq p.1, p.2)), ?_, ?_⟩
        · simp only [hpe, Bool.false_eq_true, if_false, hvq]
        · intro p hp
          obtain ⟨p0, hp0, rfl⟩ := List.mem_map.mp hp
          exact hmem p0 hp0
    obtain ⟨ranked, hrok, hrmem⟩ := hrank
    refine ⟨((pySortDescBy Prod.fst
        (ranked.map (fun p => (finalScore query now p.1 p.2, p.2)))).take limit).map Prod.snd,
      ?_, ?_⟩
    · unfold retrieve get_all
      rw [if_neg hq1, hrok]
    · intro m hm
      simp only [List.mem_map] at hm
      obtain ⟨p, hp, rfl⟩ := hm
      have hp1 : p ∈ pySortDescBy Prod.fst
          (ranked.map (fun q => (finalScore query now q.1 q.2, q.2))) :=
        List.mem_of_mem_take hp
      rw [pySortDescBy, List.mem_mergeSort, List.mem_map] at hp1
      obtain ⟨q, hq', rfl⟩ := hp1
      exact hrmem q hq'

/-- C5 witness: a store holding one ordinary memory and one memory with
empty text; with a working embedder and a long query the request
succeeds and returns only memories with non-empty display text. -/
theorem C5_empty_content_excluded_witness :
    ∃ res, retrieve embedderUp 0 ⟨[memA, memBlank], [], []⟩ qLong 5 = .ok res
      ∧ ∀ m ∈ res, m ∈ (⟨[memA, memBlank], [], []⟩ : MemoryStore).memories
        ∧ displayText m ≠ [] :=
  C5_empty_content_excluded embedderUp 0 ⟨[memA, memBlank], [], []⟩ qLong 5
    (by decide)
    (by intro m hm h; exact ⟨[1], rfl⟩)
    ⟨[1], rfl⟩

/-! ## The Python stable sort: order, permutation, stability -/

/-- `sorted(key=k, reverse=True)` yields keys in non-increasing order. -/
theorem pySortDescBy_sorted (k : α → ℚ) (l : List α) :
    (pySortDescBy k l).Pairwise (fun a b => k b ≤ k a) := by
  have h := @List.sorted_mergeSort _ (fun a b => decide (k b ≤ k a))
    (fun a b c hab hbc => by
      simp only [decide_eq_true_eq] at *
      exact le_trans hbc hab)
    (fun a b => by
      simp only [Bool.or_eq_true, decide_eq_true_eq]
      exact le_total (k b) (k a))
    l
  exact h.imp (by intro a b hab; simpa using hab)

/-- `sorted(key=k, reverse=True)` is a permutation of its input. -/
theorem pySortDescBy_perm (k : α → ℚ) (l : List α) :
    (pySortDescBy k l).Perm l :=
  List.mergeSort_perm l _

/-- Stability of `sorted(key=k, reverse=True)`: the elements matching any
predicate that pins the key down to one value come out in exactly their
input order. -/
theorem pySortDescBy_stable_filter (k : α → ℚ) (l : List α) (p : α → Bool)
    (hp : ∀ a b, p a = true → p b = true → k a = k b) :
    (pySortDescBy k l).filter p = l.filter p := by
  have hpair : (l.filter p).Pairwise (fun a b => (fun a b => decide (k b ≤ k a)) a b = true) := by
    apply List.pairwise_of_forall_mem_list
    intro a ha b hb
    have hpa := (List.mem_filter.mp ha).2
    have hpb := (List.mem_filter.mp hb).2
    simp only [decide_eq_true_eq]
    exact le_of_eq (hp b a hpb hpa)
  have hsub : (l.filter p).Sublist (pySortDescBy k l) :=
    List.sublist_mergeSort
      (fun a b c hab hbc => by
        simp only [decide_eq_true_eq] at *
        exact le_trans hbc hab)
      (fun a b => by
        simp only [Bool.or_eq_true, decide_eq_true_eq]
        exact le_total (k b) (k a))
      hpair (List.filter_sublist l)
  have hperm : ((pySortDescBy k l).filter p).Perm (l.filter p) :=
    (List.mergeSort_perm l _).filter p
  have hsub2 : (l.filter p).Sublist ((pySortDescBy k l).filter p) := by
    have h2 := hsub.filter p
    rw [List.filter_filter] at h2
    simpa [Bool.and_self] using h2
  exact (hsub2.eq_of_length hperm.length_eq.symm).symm

/-! ## C7: the short-query importance fallback -/

/-- C7: a retrieval whose query has fewer than 5 trimmed characters
returns the `limit` highest-importance memories in importance-descending
order with ties in insertion order, independent of the query's content,
the clock, and the embedder (no semantic, recency or overlap scoring
runs). -/
theorem C7_short_query_fallback (E E' : Embedder) (now now' : ℚ) (st : MemoryStore)
    (q q' : PyStr) (limit : ℕ)
    (hq : (pyStrip q).length < 5) (hq' : (pyStrip q').length < 5) :
    retrieve E now st q limit
      = .ok ((pySortDescBy (fun m => m.interestingness) st.memories).take limit)
    ∧ retrieve E now st q limit = retrieve E' now' st q' limit
    ∧ (pySortDescBy (fun m => m.interestingness) st.memories).Pairwise
        (fun a b => b.interestingness ≤ a.interestingness)
    ∧ (pySortDescBy (fun m => m.interestingness) st.memories).Perm st.memories
    ∧ (∀ v : ℚ, (pySortDescBy (fun m => m.interestingness) st.memories).filter
        (fun m => m.interestingness = v)
        = st.memories.filter (fun m => m.interestingness = v)) := by
  have hshort : ∀ (EE : Embedder) (tnow : ℚ) (qq : PyStr), (pyStrip qq).length < 5 →
      retrieve EE tnow st qq limit
        = .ok ((pySortDescBy (fun m => m.interestingness) st.memories).take limit) := by
    intro EE tnow qq hqq
    unfold retrieve get_all
    rw [if_pos (by simp [hqq])]
  refine ⟨hshort E now q hq, (hshort E now q hq).trans (hshort E' now' q' hq').symm,
    pySortDescBy_sorted _ _, pySortDescBy_perm _ _, ?_⟩
  intro v
  exact pySortDescBy_stable_filter _ _ _
    (fun a b ha hb => by
      simp only [decide_eq_true_eq] at ha hb
      rw [ha, hb])

/-- C7 witness: a two-memory store, a 2-character query and an
(irrelevant) embedder and clock: the result is the importance-descending
prefix. -/
theorem C7_short_query_fallback_witness :
    retrieve embedderUp 0 ⟨[memA, memB], [], []⟩ (("hi").data) 5
      = .ok ((pySortDescBy (fun m => m.interestingness)
          (⟨[memA, memB], [], []⟩ : MemoryStore).memories).take 5) :=
  (C7_short_query_fallback embedderUp embedderDown 0 7 ⟨[memA, memB], [], []⟩
    (("hi").data) (("x").data) 5 (by decide) (by decide)).1

/-! ## C1: the hybrid scoring formula -/

/-- C1: for a query of at least 5 trimmed characters, every memory that
received a semantic score is ranked by exactly
`sem*0.6 + importance*0.3 + recency*0.1`, plus a flat `0.2` when
`sem > 0.8`, plus `min(0.15, overlap*0.05)` when the lexical overlap is
positive; the results are sorted descending by that score and truncated
to `limit`; and the score is determined by the semantic score, the
importance, the timestamp, the clock, the query and the display text
alone. -/
theorem C1_hybrid_scoring (E : Embedder) (now : ℚ) (st : MemoryStore) (query : PyStr)
    (limit : ℕ) (ranked : List (ℚ × MemoryRecord))
    (hq : 5 ≤ (pyStrip query).length)
    (hrank : rank E query st.memories = .ok ranked) :
    (∀ sem m, finalScore query now sem m = specFinalScore query now sem m)
    ∧ retrieve E now st query limit
        = .ok (((pySortDescBy Prod.fst
            (ranked.map (fun p => (finalScore query now p.1 p.2, p.2)))).take limit).map Prod.snd)
    ∧ (pySortDescBy Prod.fst
        (ranked.map (fun p => (finalScore query now p.1 p.2, p.2)))).Pairwise
        (fun a b => b.1 ≤ a.1)
    ∧ ((pySortDescBy Prod.fst
        (ranked.map (fun p => (finalScore query now p.1 p.2, p.2)))).take limit).length
        = min limit ranked.length
    ∧ (∀ sem m m', m.interestingness = m'.interestingness → m.timestamp = m'.timestamp
        → displayText m = displayText m'
        → finalScore query now sem m = finalScore query now sem m') := by
  have hq1 : ¬ (query = [] || decide ((pyStrip query).length < 5)) = true := by
    simp only [Bool.or_eq_true, decide_eq_true_eq]
    rintro (rfl | hlt)
    · simp [pyStrip, pyStripP] at hq
    · omega
  refine ⟨?_, ?_, pySortDescBy_sorted _ _, ?_, ?_⟩
  · intro sem m
    simp only [finalScore, specFinalScore]
    split_ifs <;> ring
  · unfold retrieve get_all
    rw [if_neg hq1, hrank]
  · simp [pySortDescBy, List.length_take, List.length_mergeSort, List.length_map]
  · intro sem m m' h1 h2 h3
    simp only [finalScore]
    rw [h1, h2, h3]

/-- C1 witness: the scored branch at a concrete store, query and
embedder, where the semantic ranking is `[(0.5, memA)]`. -/
theorem C1_hybrid_scoring_witness :
    retrieve embedderUp 0 ⟨[memA], [], []⟩ qLong 5
      = .ok (((pySortDescBy Prod.fst
          ([((1:ℚ)/2, memA)].map (fun p => (finalScore qLong 0 p.1 p.2, p.2)))).take 5).map
            Prod.snd) :=
  (C1_hybrid_scoring embedderUp 0 ⟨[memA], [], []⟩ qLong 5 [((1:ℚ)/2, memA)]
    (by decide) rfl).2.1

end MemorySvc
